import Mathlib

/-!
Verification of the OLauncherStatus status server (src/src/server.js and
src/unnamed/part_000): a shallow embedding of the canonical JSON comparator,
the probe strategies, and the TTL / single-flight cache, together with
theorems settling the specification's claims about them.

Network I/O is modelled by passing the transport's answers as explicit
arguments (an `Option Response`, where `none` stands for a thrown transport,
timeout, or abort exception), and file I/O by an `Option Json` (`none` stands
for a missing or unparsable file). The JS event loop runs each synchronous
section of `getStatusData` atomically, so the cache is modelled as a state
machine whose steps are the synchronous sections: one `call` step per
invocation of `getStatusData`, one `complete` step per refresh completion.
-/

namespace OLauncherStatus

/-- JSON-representable values as produced by `JSON.parse`: null, booleans,
numbers (restricted to integers, which is all the claims exercise), strings,
arrays, and objects. JS objects cannot carry duplicate keys, so theorems
about objects carry `Nodup` hypotheses on the key list where it matters. -/
inductive Json where
  | null : Json
  | bool (b : Bool) : Json
  | num (n : Int) : Json
  | str (s : String) : Json
  | arr (elems : List Json) : Json
  | obj (entries : List (String × Json)) : Json

/-- Lower-case hexadecimal digit, as used by `JSON.stringify` in `\uXXXX`
escapes. -/
def hexDigit (n : Nat) : Char :=
  if n < 10 then Char.ofNat (48 + n) else Char.ofNat (87 + n)

/-- Four-digit hexadecimal rendering of a code point. -/
def hex4 (n : Nat) : String :=
  String.mk [hexDigit (n / 4096 % 16), hexDigit (n / 256 % 16),
             hexDigit (n / 16 % 16), hexDigit (n % 16)]

/-- Escaping of one character inside a JSON string literal, following
`JSON.stringify`. -/
def escapeChar (c : Char) : String :=
  if c = '"' then "\\\""
  else if c = '\\' then "\\\\"
  else if c = '\n' then "\\n"
  else if c = '\r' then "\\r"
  else if c = '\t' then "\\t"
  else if c = '\x08' then "\\b"
  else if c = '\x0c' then "\\f"
  else if c.toNat < 32 then "\\u" ++ hex4 c.toNat
  else String.singleton c

/-- Rendering of a string as a JSON string literal (`JSON.stringify` on a
string). -/
def jsonQuote (s : String) : String :=
  "\"" ++ String.join (s.data.map escapeChar) ++ "\""

/-- Lexicographic comparison of character lists, the order JS
`Array.prototype.sort()` uses on strings (code units; identical to code
points on the ASCII keys and the basic plane). -/
def charListLe : List Char → List Char → Bool
  | [], _ => true
  | _ :: _, [] => false
  | c :: s, d :: t =>
    if c = d then charListLe s t
    else decide (c < d)

theorem charListLe_total : ∀ a b : List Char,
    charListLe a b = true ∨ charListLe b a = true
  | [], _ => Or.inl rfl
  | _ :: _, [] => Or.inr rfl
  | c :: s, d :: t => by
    by_cases h : c = d
    · subst h
      rcases charListLe_total s t with h | h
      · left
        simp [charListLe, h]
      · right
        simp [charListLe, h]
    · rcases lt_or_gt_of_ne h with hlt | hgt
      · left
        simp [charListLe, h, hlt]
      · right
        simp [charListLe, Ne.symm h, hgt]

theorem charListLe_trans : ∀ a b c : List Char,
    charListLe a b = true → charListLe b c = true → charListLe a c = true
  | [], _, _ => fun _ _ => rfl
  | _ :: _, [], _ => fun h1 _ => by cases h1
  | _ :: _, _ :: _, [] => fun _ h2 => by cases h2
  | x :: s, y :: t, z :: u => fun h1 h2 => by
    by_cases hxy : x = y
    · subst hxy
      by_cases hyz : x = z
      · subst hyz
        have hs := charListLe_trans s t u (by simpa [charListLe] using h1)
          (by simpa [charListLe] using h2)
        simpa [charListLe] using hs
      · have hz : x < z := by simpa [charListLe, hyz] using h2
        simp [charListLe, hyz, hz]
    · have hy : x < y := by simpa [charListLe, hxy] using h1
      by_cases hyz : y = z
      · subst hyz
        have hxz : x ≠ y := hxy
        simp [charListLe, hxz, hy]
      · have hz : y < z := by simpa [charListLe, hyz] using h2
        have hxz : x < z := lt_trans hy hz
        have hne : x ≠ z := ne_of_lt hxz
        simp [charListLe, hne, hxz]

theorem charListLe_antisymm : ∀ a b : List Char,
    charListLe a b = true → charListLe b a = true → a = b
  | [], [] => fun _ _ => rfl
  | [], _ :: _ => fun _ h2 => by cases h2
  | _ :: _, [] => fun h1 _ => by cases h1
  | c :: s, d :: t => fun h1 h2 => by
    by_cases h : c = d
    · subst h
      have hst := charListLe_antisymm s t
        (by simpa [charListLe] using h1)
        (by simpa [charListLe] using h2)
      rw [hst]
    · exfalso
      have hcd : c < d := by simpa [charListLe, h] using h1
      have hdc : d < c := by simpa [charListLe, Ne.symm h] using h2
      exact absurd hcd (lt_asymm hdc)

/-- Ordering of object entries by key, the order `Object.keys(value).sort()`
produces. -/
def entryLe (p q : String × String) : Prop :=
  charListLe p.1.data q.1.data = true

instance : DecidableRel entryLe := fun p q =>
  inferInstanceAs (Decidable (charListLe p.1.data q.1.data = true))

instance : IsTotal (String × String) entryLe :=
  ⟨fun a b => charListLe_total a.1.data b.1.data⟩

instance : IsTrans (String × String) entryLe :=
  ⟨fun a b c h1 h2 => charListLe_trans a.1.data b.1.data c.1.data h1 h2⟩

mutual

/-- Embedding of `canonicalStringify` from src/src/server.js lines 32-39:
primitives go through `JSON.stringify`; arrays serialize elements in order;
objects sort their keys (`Object.keys(value).sort()`) and serialize each
`key:value` in sorted key order. Since JS object keys are unique, looking the
values up after sorting the keys is the same as sorting the (key, serialized
value) pairs by key, which is how it is written here. -/
def canonicalStringify : Json → String
  | Json.null => "null"
  | Json.bool b => if b then "true" else "false"
  | Json.num n => toString n
  | Json.str s => jsonQuote s
  | Json.arr xs => "[" ++ String.intercalate "," (canonList xs) ++ "]"
  | Json.obj kvs =>
      "\x7b" ++ String.intercalate ","
        ((List.insertionSort entryLe (canonEntries kvs)).map
          (fun p => jsonQuote p.1 ++ ":" ++ p.2)) ++ "\x7d"
termination_by structural j => j

/-- Serialization of each element of an array, in order. -/
def canonList : List Json → List String
  | [] => []
  | x :: xs => canonicalStringify x :: canonList xs
termination_by structural l => l

/-- Serialization of each object entry's value, keeping its key. -/
def canonEntries : List (String × Json) → List (String × String)
  | [] => []
  | (k, v) :: ps => (k, canonicalStringify v) :: canonEntries ps
termination_by structural l => l

end

/-- Probe verdicts: the only two values a strategy ever produces. -/
inductive Verdict where
  | green : Verdict
  | red : Verdict
deriving DecidableEq

/-- HTTP methods the executor issues. -/
inductive Method where
  | HEAD : Method
  | GET : Method
deriving DecidableEq

/-- An HTTP response as the strategies consume it: the status code, the
`content-type` header (`none` when absent), and the result of attempting
`res.json()` on the body (`none` when parsing throws). -/
structure Response where
  status : Nat
  contentType : Option String
  jsonBody : Option Json

/-- Embedding of `isOkStatus` (both files): status in [200, 400). -/
def isOkStatus (code : Nat) : Bool :=
  200 ≤ code && code < 400

/-- Whether the first character list starts with the second. -/
def startsWithChars : List Char → List Char → Bool
  | _, [] => true
  | [], _ :: _ => false
  | c :: s, d :: t => c == d && startsWithChars s t

/-- Whether the second character list occurs contiguously in the first. -/
def containsChars : List Char → List Char → Bool
  | [], sub => startsWithChars [] sub
  | c :: s, sub => startsWithChars (c :: s) sub || containsChars s sub

/-- JS `String.prototype.includes`: substring containment. -/
def strIncludes (s sub : String) : Bool :=
  containsChars s.data sub.data

/-- JS `String.prototype.toLowerCase`, for the ASCII content-type strings
the code inspects. -/
def strToLower (s : String) : String :=
  String.mk (s.data.map Char.toLower)

/-- Default probe timeout, `PROBE_TIMEOUT_MS` with no environment override. -/
def PROBE_TIMEOUT_MS : Nat := 2500

/-- Default cache TTL, `CACHE_TTL_MS` with no environment override. -/
def CACHE_TTL_MS : Int := 30000

/-- Observable side effects of a probe, recorded to state frame properties:
creation of the abort controller (`abortSignalWithTimeout`) and each
outbound fetch. -/
inductive Effect where
  | newTimeoutController (ms : Nat) : Effect
  | fetchRequest (url : String) (method : Method) : Effect

/-- Success test of one attempt inside `probeHostBasic`'s `tryMethod`:
`false` when the fetch threw (`none`), otherwise `isOkStatus(res.status)`. -/
def tryMethodOk (resp : Option Response) : Bool :=
  match resp with
  | none => false
  | some res => isOkStatus res.status

/-- Embedding of `probeHostBasic` (identical in both files): try HEAD; if
that attempt is not ok, try GET on the same URL under the same controller;
green iff the successful attempt's status was ok. The transport argument
gives the response each method would receive; the returned list records
which requests were actually issued. -/
def probeHostBasic (transport : Method → Option Response) :
    Verdict × List Method :=
  let headOk := tryMethodOk (transport Method.HEAD)
  if headOk then (Verdict.green, [Method.HEAD])
  else
    (if tryMethodOk (transport Method.GET) then Verdict.green
     else Verdict.red,
     [Method.HEAD, Method.GET])

/-- Embedding of `probeJsonAny` from src/unnamed/part_000 lines 69-90: red on
a thrown fetch or non-ok status; green when the lower-cased content type
contains "application/json" or "+json"; otherwise green iff `res.json()`
succeeds. -/
def probeJsonAny (resp : Option Response) : Verdict :=
  match resp with
  | none => Verdict.red
  | some res =>
    if !isOkStatus res.status then Verdict.red
    else
      let ct := strToLower (res.contentType.getD "")
      if strIncludes ct "application/json" || strIncludes ct "+json" then
        Verdict.green
      else
        match res.jsonBody with
        | some _ => Verdict.green
        | none => Verdict.red

/-- JS truthiness test `!expectedName` on a string-or-null value: true for
null (here `none`) and for the empty string. -/
def jsFalsyStr (s : Option String) : Bool :=
  match s with
  | none => true
  | some t => t == ""

/-- JS `live?.name`: the `name` property when `live` is an object,
`undefined` (here `none`) for every other value, null included. -/
def jsGetName (live : Json) : Option Json :=
  match live with
  | Json.obj kvs => List.lookup "name" kvs
  | _ => none

/-- JS `live?.name === expectedName` for a string `expectedName`: true iff
the property exists, is a string, and is that exact string. -/
def jsNameEq (live : Json) (expected : String) : Bool :=
  match jsGetName live with
  | some (Json.str t) => t == expected
  | _ => false

/-- Embedding of `probeNameMatch` from src/src/server.js lines 97-110,
with its side effects recorded: a falsy expected name returns red before the
abort controller is created or any fetch is issued; otherwise one GET is
made and the verdict is green iff the status is ok, the body parses, and
`live?.name === expectedName`. -/
def probeNameMatch (url : String) (expectedName : Option String)
    (resp : Option Response) : Verdict × List Effect :=
  if jsFalsyStr expectedName then (Verdict.red, [])
  else
    let effs := [Effect.newTimeoutController PROBE_TIMEOUT_MS,
                 Effect.fetchRequest url Method.GET]
    match resp with
    | none => (Verdict.red, effs)
    | some res =>
      if !isOkStatus res.status then (Verdict.red, effs)
      else
        match res.jsonBody with
        | none => (Verdict.red, effs)
        | some live =>
          ((if jsNameEq live (expectedName.getD "") then Verdict.green
            else Verdict.red), effs)

/-- Embedding of `readJsonFile` from src/src/server.js lines 22-30, with the
file system state passed in: `none` means the read or the parse threw, in
which case the function logs a warning and returns null; otherwise the
parsed document (which may itself be JSON null). -/
def readJsonFile (file : Option Json) : Json :=
  match file with
  | none => Json.null
  | some j => j

/-- Whether `readJsonFile` logs a warning on this file state: exactly when
the read or parse failed. -/
def readJsonFileWarns (file : Option Json) : Bool :=
  file.isNone

/-- JS `expected == null` on a parsed-JSON value. -/
def jsIsNull (v : Json) : Bool :=
  match v with
  | Json.null => true
  | _ => false

/-- Embedding of `probeJsonExactMatch` from src/src/server.js lines 112-130.
The reference file is read on this very call (`readJsonFile(expectedJsonPath)`
at line 113); `expected == null` (read failure, or a file whose content is
JSON null) gives red; otherwise red on thrown fetch, non-ok status, or parse
failure, and the verdict compares `canonicalStringify` of the live body with
that of the reference. -/
def probeJsonExactMatch (file : Option Json) (resp : Option Response) :
    Verdict :=
  let expected := readJsonFile file
  if jsIsNull expected then Verdict.red
  else
    match resp with
    | none => Verdict.red
    | some res =>
      if !isOkStatus res.status then Verdict.red
      else
        match res.jsonBody with
        | none => Verdict.red
        | some live =>
          if canonicalStringify live == canonicalStringify expected then
            Verdict.green
          else Verdict.red

/-- A sequence of probes of the ExactJsonMatch host over the process
lifetime: each probe carries the file system state at its own read (the file
is re-read per probe) and the response that probe's fetch obtained. -/
def probeJsonExactMatchRun (steps : List (Option Json × Option Response)) :
    List Verdict :=
  steps.map (fun st => probeJsonExactMatch st.1 st.2)

/-- How many warnings the probes of such a sequence log: one per probe whose
file read fails. -/
def probeJsonExactMatchWarnCount
    (steps : List (Option Json × Option Response)) : Nat :=
  (steps.filter (fun st => readJsonFileWarns st.1)).length

/-- The host list of src/src/server.js lines 41-53. -/
def HOSTS : List String :=
  ["minecraft.net",
   "session.minecraft.net",
   "api.mojang.com",
   "authserver.mojang.com",
   "sessionserver.mojang.com",
   "login.microsoftonline.com",
   "textures.minecraft.net",
   "pc.realms.minecraft.net",
   "resources.download.minecraft.net",
   "libraries.minecraft.net",
   "api.minecraftservices.com"]

/-- The string a verdict serializes to. -/
def verdictName (v : Verdict) : String :=
  match v with
  | Verdict.green => "green"
  | Verdict.red => "red"

/-- A status payload: the JSON array of single-key objects the refresh
builds, one `(host, verdict)` object per host in `HOSTS` order. -/
abbrev Payload := List Json

/-- The payload assembly of `getStatusData`:
`HOSTS.map((h, i) => ( \x7b [h]: results[i] \x7d ))`. -/
def buildPayload (results : List Verdict) : Payload :=
  (HOSTS.zip results).map
    (fun p => Json.obj [(p.1, Json.str (verdictName p.2))])

/-- The process-wide cache object `cache = (data, expires, inFlight)` from
src/src/server.js line 143 (identical in src/unnamed/part_000 line 119).
The in-flight promise is represented by the identifier of the refresh run it
belongs to. -/
structure CacheState where
  data : Option Payload
  expires : Int
  inFlight : Option Nat

/-- The full state of the cache subsystem: the cache object, a supply of
fresh run identifiers, the set of refresh runs started but not yet completed
(each with the `now` its starting call captured), and a counter of refresh
runs ever started, used to state single-flight. -/
structure SysState where
  cache : CacheState
  nextRun : Nat
  pending : List (Nat × Int)
  startedCount : Nat

/-- Process start: `cache = (data: null, expires: 0, inFlight: null)`, no
run started. -/
def initState : SysState :=
  ⟨⟨none, 0, none⟩, 0, [], 0⟩

/-- What one `getStatusData` call returns: the valid cached snapshot, the
promise of the already-running refresh it joined, or the promise of the
refresh run it just started. -/
inductive CallResult where
  | hit (payload : Payload) : CallResult
  | joined (run : Nat) : CallResult
  | started (run : Nat) : CallResult

/-- The guard `cache.data && cache.expires > now` of line 147: a stored
snapshot is served iff one exists and `now` is strictly before its expiry
(payload arrays are always truthy in JS). -/
def jsCacheHit (c : CacheState) (now : Int) : Bool :=
  c.data.isSome && decide (now < c.expires)

/-- One synchronous execution of `getStatusData` (lines 145-157). JS runs
this section atomically on the event loop: read `Date.now()`, serve a valid
snapshot, else join the in-flight refresh, else start a new refresh run and
publish its promise in `cache.inFlight` before yielding. -/
def callStep (s : SysState) (now : Int) : SysState × CallResult :=
  if jsCacheHit s.cache now then
    (s, CallResult.hit (s.cache.data.getD []))
  else
    match s.cache.inFlight with
    | some r => (s, CallResult.joined r)
    | none =>
      let r := s.nextRun
      (⟨⟨s.cache.data, s.cache.expires, some r⟩, r + 1,
        (r, now) :: s.pending, s.startedCount + 1⟩,
       CallResult.started r)

/-- Completion of refresh run `r` with payload `p` (line 153): the cache
object is replaced wholesale by `(data: payload, expires: now + CACHE_TTL_MS,
inFlight: null)`, where `now` is the value the starting call captured — not
the completion time. A completion for a run that is not pending does nothing
(a promise resolves only once, so such events never occur in real traces). -/
def completeStep (s : SysState) (r : Nat) (p : Payload) : SysState :=
  match List.lookup r s.pending with
  | none => s
  | some t0 =>
    ⟨⟨some p, t0 + CACHE_TTL_MS, none⟩, s.nextRun,
     s.pending.filter (fun q => q.1 != r), s.startedCount⟩

/-- The atomic sections the event loop interleaves: a `getStatusData` call at
some clock reading, or the completion of a refresh run at some clock reading
(the completion-time argument is deliberately unused by `completeStep`,
mirroring the code). -/
inductive Event where
  | call (now : Int) : Event
  | complete (now : Int) (run : Nat) (payload : Payload) : Event

/-- State transition of one event. -/
def step (s : SysState) : Event → SysState
  | Event.call now => (callStep s now).1
  | Event.complete _ r p => completeStep s r p

/-- A run of the system: the state after an arbitrary sequence of events. -/
def runEvents (s : SysState) (evs : List Event) : SysState :=
  evs.foldl step s

/-- Coupling invariant of the cache: either no refresh is in flight and none
is pending, or exactly one run is pending and `cache.inFlight` names it. -/
def CacheInv (s : SysState) : Prop :=
  (s.cache.inFlight = none ∧ s.pending = []) ∨
  (∃ r t, s.cache.inFlight = some r ∧ s.pending = [(r, t)])

/-- A burst of `getStatusData` calls with no intervening completion, as when
N concurrent readers arrive: the resulting state and the result each call
returned, in order. -/
def callsRun (s : SysState) (nows : List Int) : SysState × List CallResult :=
  match nows with
  | [] => (s, [])
  | now :: rest =>
    let s1 := (callStep s now).1
    let res := (callStep s now).2
    let s2 := (callsRun s1 rest).1
    let results := (callsRun s1 rest).2
    (s2, res :: results)

theorem jsNameEq_iff (live : Json) (s : String) :
    jsNameEq live s = true ↔ jsGetName live = some (Json.str s) := by
  unfold jsNameEq
  cases h : jsGetName live with
  | none => simp
  | some v => cases v <;> simp_all

/-- Claim C3: a `getStatusData` call made while a snapshot is stored and the
current time is strictly before `expiresAt` returns the stored snapshot
unchanged, performs zero outbound network requests, and leaves the cache
state unmodified. In the model: the call step returns the whole state
untouched (so no run starts, no probe is issued, and the started-run counter
is unchanged) together with the stored payload. -/
theorem claim_C3_cache_hit (s : SysState) (now : Int) (d : Payload)
    (hdata : s.cache.data = some d) (hexp : now < s.cache.expires) :
    callStep s now = (s, CallResult.hit d) := by
  have hhit : jsCacheHit s.cache now = true := by
    unfold jsCacheHit
    rw [hdata]
    simp [hexp]
  unfold callStep
  rw [hhit]
  simp [hdata]

/-- Witness for C3 at a concrete cache state holding one snapshot with
expiry 100, read at time 42. -/
theorem claim_C3_cache_hit_witness :
    callStep ⟨⟨some [Json.null], 100, none⟩, 1, [], 1⟩ 42 =
      (⟨⟨some [Json.null], 100, none⟩, 1, [], 1⟩, CallResult.hit [Json.null]) :=
  claim_C3_cache_hit ⟨⟨some [Json.null], 100, none⟩, 1, [], 1⟩ 42 [Json.null]
    rfl (by decide)

/-- Claim C10: when the configured expected name is missing (null or empty),
`probeNameMatch` returns red with an empty effect list — no abort controller
is created and no fetch is issued (line 98 returns before
`abortSignalWithTimeout`). -/
theorem claim_C10_missing_name_frame (url : String) (en : Option String)
    (resp : Option Response) (h : en = none ∨ en = some "") :
    probeNameMatch url en resp = (Verdict.red, []) := by
  rcases h with h | h <;> subst h <;> rfl

/-- Witness for C10: a null expected name against a perfectly good response
still yields red with no effects. -/
theorem claim_C10_missing_name_frame_witness :
    probeNameMatch "https://sessionserver.mojang.com/x" none
      (some ⟨200, none, some (Json.obj [("name", Json.str "jeb_")])⟩) =
      (Verdict.red, []) :=
  claim_C10_missing_name_frame "https://sessionserver.mojang.com/x" none
    (some ⟨200, none, some (Json.obj [("name", Json.str "jeb_")])⟩)
    (Or.inl rfl)

/-- Claim C6: with a configured (non-empty) expected name, NameMatch is
green iff the status is in [200,400), the body parses as JSON, and its
`name` field is exactly (case-sensitively) the expected string; every other
case — missing name configuration, thrown fetch, bad status, parse failure,
wrong or absent `name` — is red, and the function is total so it never
throws. -/
theorem claim_C6_name_match (url : String) (en : Option String)
    (resp : Option Response) :
    (probeNameMatch url en resp).1 = Verdict.green ↔
      (∃ s, en = some s ∧ s ≠ "" ∧
        ∃ res live, resp = some res ∧ isOkStatus res.status = true ∧
          res.jsonBody = some live ∧ jsGetName live = some (Json.str s)) := by
  unfold probeNameMatch
  cases en with
  | none => simp [jsFalsyStr]
  | some s =>
    by_cases hs : s = ""
    · subst hs
      simp [jsFalsyStr]
    · have hf : jsFalsyStr (some s) = false := by
        unfold jsFalsyStr
        exact beq_eq_false_iff_ne.mpr hs
      rw [hf]
      cases resp with
      | none => simp [hs]
      | some res =>
        by_cases hok : isOkStatus res.status = true
        · cases hb : res.jsonBody with
          | none => simp [hok, hb, hs]
          | some live =>
            have := jsNameEq_iff live s
            by_cases hn : jsNameEq live s = true
            · simp_all [hok, hb, hn, hs]
            · simp_all [hok, hb, hn, hs]
        · have hok2 : isOkStatus res.status = false := by
            simpa using hok
          simp [hok2, hs]

/-- Claim C2 (amended): completing a refresh run sets the cache expiry to
the time captured when the run started plus `CACHE_TTL_MS`. -/
theorem claim_C2_expiry_from_start (s : SysState) (r : Nat) (p : Payload)
    (t0 : Int) (h : List.lookup r s.pending = some t0) :
    (completeStep s r p).cache.expires = t0 + CACHE_TTL_MS := by
  unfold completeStep
  rw [h]

/-- Witness for the amended C2 at a concrete pending run started at time 7. -/
theorem claim_C2_expiry_from_start_witness :
    (completeStep ⟨⟨none, 0, some 0⟩, 1, [(0, 7)], 1⟩ 0 []).cache.expires =
      7 + CACHE_TTL_MS :=
  claim_C2_expiry_from_start ⟨⟨none, 0, some 0⟩, 1, [(0, 7)], 1⟩ 0 [] 7 rfl

/-- Counterexample to C2 as stated: a refresh started by a call at time 0
and completing at time 5 leaves `expiresAt = 0 + CACHE_TTL_MS`, the start
time plus TTL, not the completion time 5 plus TTL — `getStatusData` captures
`now` once at line 146 and reuses it in the completion closure at line 153. -/
theorem claim_C2_counterexample :
    (runEvents initState
      [Event.call 0, Event.complete 5 0 [Json.null]]).cache.expires =
        0 + CACHE_TTL_MS ∧
    (runEvents initState
      [Event.call 0, Event.complete 5 0 [Json.null]]).cache.expires ≠
        5 + CACHE_TTL_MS := by
  constructor
  · decide
  · decide

/-- The AnyJson green condition as claim C5 words it, modelled from the
spec's sentence: status in [200,400) and the body valid JSON, validity being
accepted either via a content-type containing "json" or by successfully
parsing the body. Kept separate from `probeJsonAny`, which embeds the code,
so the two can be compared. -/
def specAnyJsonGreen (resp : Option Response) : Prop :=
  ∃ res, resp = some res ∧ isOkStatus res.status = true ∧
    (strIncludes (strToLower (res.contentType.getD "")) "json" = true ∨
     res.jsonBody.isSome = true)

/-- Counterexample to C5 as stated: a 200 response with content type
"text/json" and an unparsable body satisfies the claim's green condition
(the content type contains "json"), yet `probeJsonAny` returns red — the
code (src/unnamed/part_000 line 76) accepts a content type only when it
contains "application/json" or "+json", and "text/json" contains neither,
so the verdict falls through to the failing body parse. -/
theorem claim_C5_counterexample :
    specAnyJsonGreen (some ⟨200, some "text/json", none⟩) ∧
    probeJsonAny (some ⟨200, some "text/json", none⟩) = Verdict.red := by
  constructor
  · exact ⟨⟨200, some "text/json", none⟩, rfl, by decide, Or.inl (by decide)⟩
  · decide

/-- Claim C5 (amended): AnyJson is green iff the status is in [200,400) and
either the lower-cased content type contains "application/json" or "+json",
or the body parses as JSON; in every other case, including parse failure,
non-JSON content, and a thrown transport or timeout (the `none` response),
it is red — and the function is total, so it never throws. -/
theorem claim_C5_any_json (resp : Option Response) :
    probeJsonAny resp = Verdict.green ↔
      (∃ res, resp = some res ∧ isOkStatus res.status = true ∧
        (strIncludes (strToLower (res.contentType.getD ""))
            "application/json" = true ∨
         strIncludes (strToLower (res.contentType.getD "")) "+json" = true ∨
         res.jsonBody.isSome = true)) := by
  cases resp with
  | none => simp [probeJsonAny]
  | some res =>
    by_cases hok : isOkStatus res.status = true
    · by_cases h1 : strIncludes (strToLower (res.contentType.getD ""))
          "application/json" = true
      · simp [probeJsonAny, hok, h1]
      · have h1f : strIncludes (strToLower (res.contentType.getD ""))
            "application/json" = false := by simpa using h1
        by_cases h2 : strIncludes (strToLower (res.contentType.getD ""))
            "+json" = true
        · simp [probeJsonAny, hok, h1f, h2]
        · have h2f : strIncludes (strToLower (res.contentType.getD ""))
              "+json" = false := by simpa using h2
          cases hb : res.jsonBody with
          | none => simp [probeJsonAny, hok, h1f, h2f, hb]
          | some live => simp [probeJsonAny, hok, h1f, h2f, hb]
    · have hok2 : isOkStatus res.status = false := by simpa using hok
      simp [probeJsonAny, hok2]

/-- Claim C7 (amended): ExactJsonMatch is green iff the reference file
loaded to a document other than JSON null and the response has an ok status,
a body that parses, and a canonicalization byte-equal to the reference's; a
missing or unparsable reference file is red — and so, additionally, is a
reference file whose content is the JSON document `null`, which the code
cannot distinguish from a failed load (`expected == null` at line 114). -/
theorem claim_C7_exact_json_match (file : Option Json)
    (resp : Option Response) :
    probeJsonExactMatch file resp = Verdict.green ↔
      (∃ ref, file = some ref ∧ jsIsNull ref = false ∧
        ∃ res live, resp = some res ∧ isOkStatus res.status = true ∧
          res.jsonBody = some live ∧
          canonicalStringify live = canonicalStringify ref) := by
  cases file with
  | none => simp [probeJsonExactMatch, readJsonFile, jsIsNull]
  | some ref =>
    by_cases hnull : jsIsNull ref = true
    · simp [probeJsonExactMatch, readJsonFile, hnull]
    · have hnull2 : jsIsNull ref = false := by simpa using hnull
      cases resp with
      | none => simp [probeJsonExactMatch, readJsonFile, hnull2]
      | some res =>
        by_cases hok : isOkStatus res.status = true
        · cases hb : res.jsonBody with
          | none => simp [probeJsonExactMatch, readJsonFile, hok, hb, hnull2]
          | some live =>
            by_cases hc :
                canonicalStringify live = canonicalStringify ref
            · simp [probeJsonExactMatch, readJsonFile, hok, hb, hnull2, hc]
            · have hc2 : (canonicalStringify live ==
                  canonicalStringify ref) = false :=
                beq_eq_false_iff_ne.mpr hc
              simp [probeJsonExactMatch, readJsonFile, hok, hb, hnull2,
                    hc2, hc]
        · have hok2 : isOkStatus res.status = false := by simpa using hok
          simp [probeJsonExactMatch, readJsonFile, hok2, hnull2]

/-- Counterexample to C7 as stated: the reference file containing the JSON
document `null` loads successfully, and a 200 response whose body is that
same document canonicalizes identically — the claim then requires green —
yet `probeJsonExactMatch` returns red, because `expected == null` treats the
legitimately-loaded null document as a load failure. -/
theorem claim_C7_counterexample :
    probeJsonExactMatch (some Json.null)
      (some ⟨200, none, some Json.null⟩) = Verdict.red ∧
    isOkStatus 200 = true ∧
    canonicalStringify Json.null = canonicalStringify Json.null := by
  exact ⟨rfl, rfl, rfl⟩

/-- Claim C8: `probeHostBasic` issues HEAD first, retries exactly once with
GET iff the HEAD attempt threw or had a status outside [200,400), and the
verdict is green iff the HEAD attempt was ok or, the HEAD attempt having
failed, the GET attempt was ok — a function of status codes only, with no
body inspection (the right-hand sides mention nothing but the statuses). -/
theorem claim_C8_basic_reachability (transport : Method → Option Response) :
    ((probeHostBasic transport).2 =
      if tryMethodOk (transport Method.HEAD) = true then [Method.HEAD]
      else [Method.HEAD, Method.GET]) ∧
    ((probeHostBasic transport).1 = Verdict.green ↔
      ((∃ res, transport Method.HEAD = some res ∧
          isOkStatus res.status = true) ∨
       (tryMethodOk (transport Method.HEAD) = false ∧
        ∃ res, transport Method.GET = some res ∧
          isOkStatus res.status = true))) := by
  by_cases hh : tryMethodOk (transport Method.HEAD) = true
  · have hex : ∃ res, transport Method.HEAD = some res ∧
        isOkStatus res.status = true := by
      cases hr : transport Method.HEAD with
      | none => simp [tryMethodOk, hr] at hh
      | some res =>
        refine ⟨res, rfl, ?_⟩
        simpa [tryMethodOk, hr] using hh
    constructor
    · simp [probeHostBasic, hh]
    · simp [probeHostBasic, hh, hex]
  · have hh2 : tryMethodOk (transport Method.HEAD) = false := by
      simpa using hh
    have hnog : ¬ ∃ res, transport Method.HEAD = some res ∧
        isOkStatus res.status = true := by
      rintro ⟨res, hr, hok⟩
      rw [hr] at hh2
      simp [tryMethodOk, hok] at hh2
    constructor
    · simp [probeHostBasic, hh2]
    · by_cases hg : tryMethodOk (transport Method.GET) = true
      · have hex : ∃ res, transport Method.GET = some res ∧
            isOkStatus res.status = true := by
          cases hr : transport Method.GET with
          | none => simp [tryMethodOk, hr] at hg
          | some res =>
            refine ⟨res, rfl, ?_⟩
            simpa [tryMethodOk, hr] using hg
        simp [probeHostBasic, hh2, hg, hex]
      · have hg2 : tryMethodOk (transport Method.GET) = false := by
          simpa using hg
        have hnog2 : ¬ ∃ res, transport Method.GET = some res ∧
            isOkStatus res.status = true := by
          rintro ⟨res, hr, hok⟩
          rw [hr] at hg2
          simp [tryMethodOk, hok] at hg2
        simp [probeHostBasic, hh2, hg2, hnog, hnog2]

/-- A reference document used in the C4 scenarios. -/
def refDoc : Json := Json.obj [("a", Json.num 1)]

/-- A 200 response whose body parses to `refDoc`. -/
def okRefResp : Response := ⟨200, none, some refDoc⟩

/-- Counterexample to C4 as stated: the claim says a failed load of the
ExactJsonMatch reference degrades the strategy permanently to red for the
process lifetime, regardless of later changes to the file, with one warning
logged at load time. In the code the file is re-read inside every probe
(line 113), so: a first probe that finds the file missing is red, yet the
very next probe, after the file appears with matching content, is green;
and a trace with two failing reads logs two warnings, one per probe, not
one at load time. -/
theorem claim_C4_counterexample :
    probeJsonExactMatchRun
      [(none, some okRefResp), (some refDoc, some okRefResp)] =
      [Verdict.red, Verdict.green] ∧
    probeJsonExactMatchWarnCount
      [(none, some okRefResp), (none, some okRefResp)] = 2 := by
  constructor
  · rfl
  · rfl

/-- Claim C4 (amended): the reference file is re-read on every probe, so the
degradation is per-probe rather than permanent: a probe whose read or parse
fails returns red and logs a warning at that probe (never raising), and a
probe whose read succeeds with a non-null document is judged on its own
response — appended to any history whatsoever, a probe with a good file and
a matching ok response is green. -/
theorem claim_C4_per_probe_read :
    (∀ resp, probeJsonExactMatch none resp = Verdict.red ∧
      readJsonFileWarns none = true) ∧
    (∀ (hist : List (Option Json × Option Response)) (ref : Json)
        (res : Response) (live : Json),
      jsIsNull ref = false → isOkStatus res.status = true →
      res.jsonBody = some live →
      canonicalStringify live = canonicalStringify ref →
      probeJsonExactMatchRun (hist ++ [(some ref, some res)]) =
        probeJsonExactMatchRun hist ++ [Verdict.green]) := by
  constructor
  · intro resp
    exact ⟨rfl, rfl⟩
  · intro hist ref res live hnull hok hb hc
    have hgreen : probeJsonExactMatch (some ref) (some res) =
        Verdict.green := by
      have hc2 : (canonicalStringify live == canonicalStringify ref)
          = true := beq_iff_eq.mpr hc
      simp [probeJsonExactMatch, readJsonFile, hnull, hok, hb, hc2]
    unfold probeJsonExactMatchRun
    rw [List.map_append]
    simp [hgreen]

/-- Witness for the amended C4: after a probe whose file read failed, a
probe that reads `refDoc` and receives a matching 200 response is green. -/
theorem claim_C4_per_probe_read_witness :
    probeJsonExactMatchRun
      ([(none, some okRefResp)] ++ [(some refDoc, some okRefResp)]) =
      probeJsonExactMatchRun [(none, some okRefResp)] ++ [Verdict.green] :=
  claim_C4_per_probe_read.2 [(none, some okRefResp)] refDoc okRefResp refDoc
    rfl rfl rfl rfl

theorem cacheInv_init : CacheInv initState :=
  Or.inl ⟨rfl, rfl⟩

theorem cacheInv_step (s : SysState) (e : Event) (h : CacheInv s) :
    CacheInv (step s e) := by
  cases e with
  | call now =>
    show CacheInv (callStep s now).1
    by_cases hhit : jsCacheHit s.cache now = true
    · simpa [callStep, hhit] using h
    · have hhit2 : jsCacheHit s.cache now = false := by simpa using hhit
      cases hif : s.cache.inFlight with
      | some r => simpa [callStep, hhit2, hif] using h
      | none =>
        have hp : s.pending = [] := by
          rcases h with ⟨_, hp⟩ | ⟨r, t, hif2, _⟩
          · exact hp
          · rw [hif] at hif2
            cases hif2
        right
        exact ⟨s.nextRun, now, by simp [callStep, hhit2, hif],
               by simp [callStep, hhit2, hif, hp]⟩
  | complete now r p =>
    show CacheInv (completeStep s r p)
    cases hl : List.lookup r s.pending with
    | none => simpa [completeStep, hl] using h
    | some t0 =>
      rcases h with ⟨hif, hp⟩ | ⟨r0, t, hif, hp⟩
      · rw [hp] at hl
        cases hl
      · rw [hp] at hl
        by_cases hrr : r = r0
        · subst hrr
          left
          refine ⟨by simp [completeStep, hp, hl], ?_⟩
          simp [completeStep, hp, hl]
        · have : List.lookup r [(r0, t)] = none := by
            simp [List.lookup, beq_eq_false_iff_ne.mpr hrr]
          rw [this] at hl
          cases hl

theorem cacheInv_runEvents (evs : List Event) (s : SysState)
    (h : CacheInv s) : CacheInv (runEvents s evs) := by
  induction evs generalizing s with
  | nil => exact h
  | cons e rest ih => exact ih (step s e) (cacheInv_step s e h)

theorem cacheInv_pending_le_one (s : SysState) (h : CacheInv s) :
    s.pending.length ≤ 1 := by
  rcases h with ⟨_, hp⟩ | ⟨r, t, _, hp⟩ <;> simp [hp]

theorem callsRun_joined (s : SysState) (r : Nat) (nows : List Int)
    (hif : s.cache.inFlight = some r)
    (hmiss : ∀ now ∈ nows, jsCacheHit s.cache now = false) :
    callsRun s nows = (s, List.replicate nows.length
      (CallResult.joined r)) := by
  induction nows with
  | nil => rfl
  | cons now rest ih =>
    have h1 : callStep s now = (s, CallResult.joined r) := by
      simp [callStep, hmiss now (List.mem_cons_self now rest), hif]
    have h2 := ih (fun n hn => hmiss n (List.mem_cons_of_mem now hn))
    simp [callsRun, h1, h2, List.replicate_succ]

/-- Claim C1: single-flight. First part: over every run of the system (any
interleaving of call and completion events from process start), at most one
refresh run is in flight — started but not completed — at any instant.
Second part: a burst of N ≥ 1 `getStatusData` calls arriving while no
snapshot is valid at any of their clock readings and no refresh is in
flight starts exactly one refresh run, the first call receiving the new
run's promise and every other call joining that same run, so all N callers
receive that one run's result. -/
theorem claim_C1_single_flight :
    (∀ evs : List Event,
      (runEvents initState evs).pending.length ≤ 1) ∧
    (∀ (s : SysState) (nows : List Int),
      s.cache.inFlight = none →
      (∀ now ∈ nows, jsCacheHit s.cache now = false) →
      nows ≠ [] →
      (callsRun s nows).1.startedCount = s.startedCount + 1 ∧
      (callsRun s nows).2 =
        CallResult.started s.nextRun ::
          List.replicate (nows.length - 1)
            (CallResult.joined s.nextRun)) := by
  constructor
  · intro evs
    exact cacheInv_pending_le_one _ (cacheInv_runEvents evs _ cacheInv_init)
  · intro s nows hif hmiss hne
    cases nows with
    | nil => exact absurd rfl hne
    | cons now rest =>
      have h1 : callStep s now =
          (⟨⟨s.cache.data, s.cache.expires, some s.nextRun⟩, s.nextRun + 1,
            (s.nextRun, now) :: s.pending, s.startedCount + 1⟩,
           CallResult.started s.nextRun) := by
        simp [callStep, hmiss now (List.mem_cons_self now rest), hif]
      have hrest : callsRun
          (⟨⟨s.cache.data, s.cache.expires, some s.nextRun⟩, s.nextRun + 1,
            (s.nextRun, now) :: s.pending, s.startedCount + 1⟩ : SysState)
          rest =
          (⟨⟨s.cache.data, s.cache.expires, some s.nextRun⟩, s.nextRun + 1,
            (s.nextRun, now) :: s.pending, s.startedCount + 1⟩,
           List.replicate rest.length
             (CallResult.joined s.nextRun)) := by
        apply callsRun_joined
        · rfl
        · intro n hn
          exact hmiss n (List.mem_cons_of_mem now hn)
      constructor
      · simp [callsRun, h1, hrest]
      · simp [callsRun, h1, hrest]

/-- Witness for C1's second part: three concurrent calls at time 0 against
the empty initial cache start exactly one run (run 0) and return that run's
promise to all three callers. -/
theorem claim_C1_single_flight_witness :
    (callsRun initState [0, 0, 0]).1.startedCount =
        initState.startedCount + 1 ∧
    (callsRun initState [0, 0, 0]).2 =
      CallResult.started initState.nextRun ::
        List.replicate 2 (CallResult.joined initState.nextRun) :=
  claim_C1_single_flight.2 initState [0, 0, 0] rfl (by decide) (by decide)

/-- Strict version of the entry ordering: key-below and keys distinct. -/
def entryLt (p q : String × String) : Prop :=
  entryLe p q ∧ p.1 ≠ q.1

instance : IsAntisymm (String × String) entryLt :=
  ⟨fun a b h1 h2 =>
    absurd (String.ext (charListLe_antisymm a.1.data b.1.data h1.1 h2.1))
      h1.2⟩

theorem canonEntries_eq_map (kvs : List (String × Json)) :
    canonEntries kvs = kvs.map (fun p => (p.1, canonicalStringify p.2)) := by
  induction kvs with
  | nil => rfl
  | cons p ps ih =>
    cases p with
    | mk k v => simp [canonEntries, ih]

theorem canonEntries_keys (kvs : List (String × Json)) :
    (canonEntries kvs).map Prod.fst = kvs.map Prod.fst := by
  simp [canonEntries_eq_map, List.map_map, Function.comp_def]

theorem canonicalStringify_obj_perm (kvs1 kvs2 : List (String × Json))
    (hperm : kvs1.Perm kvs2) (hnd : (kvs1.map Prod.fst).Nodup) :
    canonicalStringify (Json.obj kvs1) =
      canonicalStringify (Json.obj kvs2) := by
  have hperm2 : (canonEntries kvs1).Perm (canonEntries kvs2) := by
    rw [canonEntries_eq_map, canonEntries_eq_map]
    exact hperm.map _
  have hnd1 : ((canonEntries kvs1).map Prod.fst).Nodup := by
    rw [canonEntries_keys]
    exact hnd
  have hsortedeq :
      List.insertionSort entryLe (canonEntries kvs1) =
      List.insertionSort entryLe (canonEntries kvs2) := by
    have hpermS :
        (List.insertionSort entryLe (canonEntries kvs1)).Perm
          (List.insertionSort entryLe (canonEntries kvs2)) :=
      (List.perm_insertionSort entryLe (canonEntries kvs1)).trans
        (hperm2.trans
          (List.perm_insertionSort entryLe (canonEntries kvs2)).symm)
    have hndS1 :
        ((List.insertionSort entryLe (canonEntries kvs1)).map
          Prod.fst).Nodup :=
      (((List.perm_insertionSort entryLe
          (canonEntries kvs1)).map Prod.fst).nodup_iff).mpr hnd1
    have hndS2 :
        ((List.insertionSort entryLe (canonEntries kvs2)).map
          Prod.fst).Nodup :=
      ((hpermS.map Prod.fst).nodup_iff).mp hndS1
    have hlt1 :
        (List.insertionSort entryLe (canonEntries kvs1)).Pairwise
          entryLt :=
      (List.pairwise_and_iff.mpr
        ⟨List.sorted_insertionSort entryLe (canonEntries kvs1),
         List.pairwise_map.mp hndS1⟩).imp
        (fun h => ⟨h.1, h.2⟩)
    have hlt2 :
        (List.insertionSort entryLe (canonEntries kvs2)).Pairwise
          entryLt :=
      (List.pairwise_and_iff.mpr
        ⟨List.sorted_insertionSort entryLe (canonEntries kvs2),
         List.pairwise_map.mp hndS2⟩).imp
        (fun h => ⟨h.1, h.2⟩)
    exact List.eq_of_perm_of_sorted hpermS hlt1 hlt2
  simp only [canonicalStringify]
  rw [hsortedeq]

/-- Claim C9: canonicalization is key-order independent for mappings and
order-sensitive for sequences. First part: any two objects whose entry
lists are permutations of one another (keys unique, values arbitrary — so
arbitrarily deeply nested) canonicalize to byte-identical strings. Second:
`canonicalize([1,2])` differs from `canonicalize([2,1])`. Third: key-order
independence holds below the top level too, shown on objects nested inside
objects inside arrays. The embedding is a pure function, so it cannot
mutate its input. -/
theorem claim_C9_canonicalize :
    (∀ kvs1 kvs2 : List (String × Json), kvs1.Perm kvs2 →
      (kvs1.map Prod.fst).Nodup →
      canonicalStringify (Json.obj kvs1) =
        canonicalStringify (Json.obj kvs2)) ∧
    canonicalStringify (Json.arr [Json.num 1, Json.num 2]) ≠
      canonicalStringify (Json.arr [Json.num 2, Json.num 1]) ∧
    canonicalStringify (Json.obj
      [("x", Json.obj [("b", Json.num 1),
         ("a", Json.arr [Json.obj [("d", Json.null),
            ("c", Json.bool true)]])]),
       ("w", Json.num 0)]) =
      canonicalStringify (Json.obj
        [("w", Json.num 0),
         ("x", Json.obj [("a", Json.arr [Json.obj [("c", Json.bool true),
            ("d", Json.null)]]), ("b", Json.num 1)])]) := by
  refine ⟨canonicalStringify_obj_perm, by decide, by decide⟩

/-- Witness for C9's universal part at the spec's own example:
canonicalize of b:1,a:2 equals canonicalize of a:2,b:1. -/
theorem claim_C9_canonicalize_witness :
    canonicalStringify (Json.obj [("b", Json.num 1), ("a", Json.num 2)]) =
      canonicalStringify (Json.obj [("a", Json.num 2), ("b", Json.num 1)]) :=
  claim_C9_canonicalize.1 [("b", Json.num 1), ("a", Json.num 2)]
    [("a", Json.num 2), ("b", Json.num 1)]
    (List.Perm.swap ("a", Json.num 2) ("b", Json.num 1) [])
    (by decide)

end OLauncherStatus
